import Mathlib

/-!
Shallow embedding of the USHD life-table and decomposition core
(src/ushd/life_table.py and src/ushd/decomposition.py).

Python floats are modelled as exact rationals; float literals such as
0.005, 1e-5 and 1e-12 are read as the rationals 1/200, 1/10^5 and 1/10^12.
Python exceptions are modelled with an Except monad over an error type with
one constructor per raise site.
-/

set_option maxRecDepth 8000
set_option maxHeartbeats 4000000

set_option allowUnsafeReducibility true
attribute [semireducible] Rat.add Rat.sub Rat.mul Rat.inv

namespace USHD

/-- Error type: one constructor per raise site in the source.
The first six come from life_table.py, the last four from decomposition.py. -/
inductive Err where
  | lengthMismatch
  | tooFewGroups
  | upperNotAboveLower
  | axLengthMismatch
  | nonFinalOpen
  | negativeRates
  | mxLengthMismatch
  | emptyCohort
  | emptyCounty
  | noOverlap
deriving DecidableEq

/-- Mirror of the LifeTableInput dataclass (life_table.py lines 56-62). -/
structure LifeTableInput where
  age_lower : List ℚ
  age_upper : List (Option ℚ)
  mx : List ℚ
  ax : Option (List ℚ) := none
  radix : ℚ := 100000
deriving DecidableEq

/-- Mirror of the LifeTable dataclass (life_table.py lines 9-24). -/
structure LifeTable where
  age_lower : List ℚ
  age_upper : List (Option ℚ)
  n : List (Option ℚ)
  mx : List ℚ
  ax : List ℚ
  qx : List ℚ
  px : List ℚ
  lx : List ℚ
  dx : List ℚ
  Lx : List ℚ
  Tx : List ℚ
  ex : List ℚ
deriving DecidableEq

/-- Rate floor 1e-12 used by the source to guard divisions (life_table.py
lines 96 and 158). -/
def eps12 : ℚ := 1 / 10 ^ 12

/-- Mirror of validation (life_table.py lines 65-85), returning the error of
the first failing check in source order, or none if all pass. The Python
loops over zip(age_lower, age_upper) and over age_upper[:-1] are rendered by
index; they are reached only after the length checks, where both renderings
traverse exactly the same pairs. -/
def validate_inputs (d : LifeTableInput) : Option Err :=
  if d.age_lower.length = d.age_upper.length ∧ d.age_upper.length = d.mx.length then
    if d.age_lower.length < 2 then
      some .tooFewGroups
    else if (List.range d.age_lower.length).any
        (fun i => match d.age_upper.getD i none with
          | some high => decide (high ≤ d.age_lower.getD i 0)
          | none => false) then
      some .upperNotAboveLower
    else if (match d.ax with
        | some a => a.length != d.age_lower.length
        | none => false) then
      some .axLengthMismatch
    else if (List.range (d.age_upper.length - 1)).any
        (fun i => (d.age_upper.getD i none).isNone) then
      some .nonFinalOpen
    else
      none
  else
    some .lengthMismatch

/-- Number of age groups of an input. -/
def kOf (d : LifeTableInput) : Nat := d.mx.length

/-- Component access: age_lower at row i. -/
def loAt (d : LifeTableInput) (i : Nat) : ℚ := d.age_lower.getD i 0

/-- Component access: age_upper at row i. -/
def hiAt (d : LifeTableInput) (i : Nat) : Option ℚ := d.age_upper.getD i none

/-- Component access: mx at row i. -/
def mxAt (d : LifeTableInput) (i : Nat) : ℚ := d.mx.getD i 0

/-- Value of ax at row i: a supplied ax is used unchanged; otherwise it is
derived as in life_table.py lines 88-99: (high - low) / 2 for a closed
interval, 1 / max(rate, 1e-12) for the open final interval. -/
def axAt (d : LifeTableInput) (i : Nat) : ℚ :=
  match d.ax with
  | some a => a.getD i 0
  | none =>
    match hiAt d i with
    | none => 1 / max (mxAt d i) eps12
    | some high => (high - loAt d i) / 2

/-- Interval width n at row i (life_table.py lines 130-135): none for the
open interval, high - low otherwise. -/
def nAt (d : LifeTableInput) (i : Nat) : Option ℚ :=
  (hiAt d i).map (fun high => high - loAt d i)

/-- Death probability qx at row i (life_table.py lines 137-145): 1 for the
open interval; otherwise n*m / (1 + (n - a)*m), with the value forced to 1
when the denominator is zero, clamped to the interval from 0 to 1. -/
def qxAt (d : LifeTableInput) (i : Nat) : ℚ :=
  match nAt d i with
  | none => 1
  | some width =>
    let numerator := width * mxAt d i
    let denominator := 1 + (width - axAt d i) * mxAt d i
    let value := if denominator = 0 then 1 else numerator / denominator
    max 0 (min 1 value)

/-- Survival probability px = 1 - qx (life_table.py line 147). -/
def pxAt (d : LifeTableInput) (i : Nat) : ℚ := 1 - qxAt d i

/-- Survivors lx at row i (life_table.py lines 149-151): lx[0] is the radix
and each following entry multiplies by the previous px. -/
def lxAt (d : LifeTableInput) : Nat → ℚ
  | 0 => d.radix
  | i + 1 => lxAt d i * pxAt d i

/-- Deaths dx = lx * qx at row i (life_table.py line 153). -/
def dxAt (d : LifeTableInput) (i : Nat) : ℚ := lxAt d i * qxAt d i

/-- Person-years Lx at row i (life_table.py lines 155-160): for the open
interval lx / max(rate, 1e-12), otherwise n*(lx - dx) + ax*dx. -/
def LxAt (d : LifeTableInput) (i : Nat) : ℚ :=
  match nAt d i with
  | none => lxAt d i / max (mxAt d i) eps12
  | some width => width * (lxAt d i - dxAt d i) + axAt d i * dxAt d i

/-- Person-years Tx from row i onward (life_table.py lines 162-165): the
reverse cumulative sum of Lx, i.e. the sum of Lx over rows i..k-1. -/
def TxAt (d : LifeTableInput) (i : Nat) : ℚ :=
  ∑ j ∈ Finset.Ico i (kOf d), LxAt d j

/-- Life expectancy ex = Tx / lx, or 0 when lx is zero
(life_table.py line 167). -/
def exAt (d : LifeTableInput) (i : Nat) : ℚ :=
  if lxAt d i = 0 then 0 else TxAt d i / lxAt d i

/-- Pure column computation of build_life_table after validation has passed
(life_table.py lines 118-182). -/
def table_from (d : LifeTableInput) : LifeTable :=
  { age_lower := (List.range (kOf d)).map (loAt d)
    age_upper := (List.range (kOf d)).map (hiAt d)
    n := (List.range (kOf d)).map (nAt d)
    mx := (List.range (kOf d)).map (mxAt d)
    ax := (List.range (kOf d)).map (axAt d)
    qx := (List.range (kOf d)).map (qxAt d)
    px := (List.range (kOf d)).map (pxAt d)
    lx := (List.range (kOf d)).map (lxAt d)
    dx := (List.range (kOf d)).map (dxAt d)
    Lx := (List.range (kOf d)).map (LxAt d)
    Tx := (List.range (kOf d)).map (TxAt d)
    ex := (List.range (kOf d)).map (exAt d) }

/-- Mirror of build_life_table (life_table.py lines 102-182): validate,
then reject negative rates, then compute the table columns. -/
def build_life_table (d : LifeTableInput) : Except Err LifeTable :=
  match validate_inputs d with
  | some e => .error e
  | none =>
    if d.mx.any (fun r => decide (r < 0)) then .error .negativeRates
    else .ok (table_from d)

/-- Exception-propagating map over a list, evaluating left to right and
stopping at the first error, as a Python for-loop of fallible calls does. -/
def mapE {α β : Type} (g : α → Except Err β) : List α → Except Err (List β)
  | [] => .ok []
  | a :: as =>
    match g a with
    | .error e => .error e
    | .ok b =>
      match mapE g as with
      | .error e => .error e
      | .ok bs => .ok (b :: bs)

/-- Exception-propagating fold over a list, evaluating left to right and
stopping at the first error, as a Python for-loop updating an accumulator
of fallible calls does. -/
def foldE {α β : Type} (f : β → α → Except Err β) : β → List α → Except Err β
  | b, [] => .ok b
  | b, a :: as =>
    match f b a with
    | .error e => .error e
    | .ok b2 => foldE f b2 as

/-- Mirror of the DecompositionResult dataclass (decomposition.py
lines 11-15). -/
structure DecompositionResult where
  age_lower : List ℚ
  age_upper : List (Option ℚ)
  contribution : List ℚ
deriving DecidableEq

/-- Finite-difference step 1e-5, the default of numeric_gradient
(decomposition.py line 50). -/
def hstep : ℚ := 1 / 10 ^ 5

/-- Mirror of life_expectancy_from_mx (decomposition.py lines 35-44):
ex[0] of the life table built with the given rates, default radix. -/
def life_expectancy_from_mx (mx : List ℚ) (age_lower : List ℚ)
    (age_upper : List (Option ℚ)) (ax : Option (List ℚ)) : Except Err ℚ :=
  (build_life_table
    { age_lower := age_lower, age_upper := age_upper, mx := mx, ax := ax,
      radix := 100000 }).map (fun t => t.ex.headD 0)

/-- Mirror of numeric_gradient (decomposition.py lines 47-60): for each
index, perturb that component by +step, then subtract 2*step from the
perturbed value, evaluate func at both vectors and take the central
difference quotient. -/
def numeric_gradient (func : List ℚ → Except Err ℚ) (mx : List ℚ)
    (step : ℚ) : Except Err (List ℚ) :=
  mapE (fun idx =>
    match func (mx.set idx (mx.getD idx 0 + step)) with
    | .error e => .error e
    | .ok upper =>
      match func (mx.set idx (mx.getD idx 0 + step - 2 * step)) with
      | .error e => .error e
      | .ok lower => .ok ((upper - lower) / (2 * step)))
    (List.range mx.length)

/-- Body of the per-step loop of horiuchi_decomposition (decomposition.py
lines 85-90): at midpoint weight (step_idx + 0.5) / steps form the
intermediate rates, take the numeric gradient there, and accumulate
gradient * delta / steps into the contributions. -/
def horiuchiStep (baseline delta : List ℚ) (age_lower : List ℚ)
    (age_upper : List (Option ℚ)) (ax : Option (List ℚ)) (steps : Nat)
    (contribs : List ℚ) (step_idx : Nat) : Except Err (List ℚ) :=
  match numeric_gradient
      (fun values => life_expectancy_from_mx values age_lower age_upper ax)
      ((baseline.zip delta).map
        (fun p => p.1 + (((step_idx : ℚ) + 1/2) / (steps : ℚ)) * p.2))
      hstep with
  | .error e => .error e
  | .ok gradient =>
    .ok ((contribs.zip (gradient.zip delta)).map
      (fun p => p.1 + p.2.1 * p.2.2 / (steps : ℚ)))

/-- Mirror of horiuchi_decomposition (decomposition.py lines 63-96); the
local delta = comparison - baseline is written out at its use sites. -/
def horiuchi_decomposition (baseline_mx comparison_mx : List ℚ)
    (age_lower : List ℚ) (age_upper : List (Option ℚ))
    (ax : Option (List ℚ)) (steps : Nat) : Except Err DecompositionResult :=
  if baseline_mx.length ≠ comparison_mx.length then .error .mxLengthMismatch
  else
    match foldE
        (horiuchiStep baseline_mx
          ((baseline_mx.zip comparison_mx).map (fun p => p.2 - p.1))
          age_lower age_upper ax steps)
        (((baseline_mx.zip comparison_mx).map (fun p => p.2 - p.1)).map
          (fun _ => (0 : ℚ)))
        (List.range steps) with
    | .error e => .error e
    | .ok contributions =>
      .ok { age_lower := age_lower, age_upper := age_upper,
            contribution := contributions }

/-- Input record for the cohort aligner, modelling one row of the tabular
data handed to decompose_between_counties; the indirection through column
names is resolved into fields, and a missing ax cell is none. -/
structure Row where
  county : String
  race : String
  sex : String
  age_lower : ℚ
  age_upper : Option ℚ
  mx : ℚ
  ax : Option ℚ := none
deriving DecidableEq

/-- Output record of decompose_between_counties: one contribution row with
the identifying metadata attached (decomposition.py lines 180-192). -/
structure OutRow where
  age_lower : ℚ
  age_upper : Option ℚ
  contribution : ℚ
  county_a : String
  county_b : String
  race : String
  sex : String
  life_expectancy_difference : ℚ
deriving DecidableEq

/-- Key of a row (decomposition.py lines 110-113). -/
def rkey (r : Row) : ℚ × Option ℚ := (r.age_lower, r.age_upper)

/-- Order on the optional upper bounds used when sorting keys: an undefined
(open-ended) bound sorts after every defined bound. -/
def upperLe : Option ℚ → Option ℚ → Prop
  | none, none => True
  | none, some _ => False
  | some _, none => True
  | some x, some y => x ≤ y

instance upperLe.instDecRel : DecidableRel upperLe
  | none, none => isTrue trivial
  | none, some _ => isFalse (fun h => h)
  | some _, none => isTrue trivial
  | some x, some y => inferInstanceAs (Decidable (x ≤ y))

/-- Lexicographic order on (age_lower, age_upper) keys, mirroring the
sorted() call on key tuples (decomposition.py line 148). -/
def keyLe (a b : ℚ × Option ℚ) : Prop :=
  a.1 < b.1 ∨ (a.1 = b.1 ∧ upperLe a.2 b.2)

instance keyLe.instDecRel : DecidableRel keyLe := fun a b =>
  inferInstanceAs (Decidable (_ ∨ _ ∧ _))

instance keyLe.instTotal : IsTotal (ℚ × Option ℚ) keyLe := by
  constructor
  intro a b
  rcases lt_trichotomy a.1 b.1 with h | h | h
  · exact Or.inl (Or.inl h)
  · have hu : upperLe a.2 b.2 ∨ upperLe b.2 a.2 := by
      cases a.2 <;> cases b.2 <;> simp [upperLe] <;> exact le_total _ _
    rcases hu with h2 | h2
    · exact Or.inl (Or.inr ⟨h, h2⟩)
    · exact Or.inr (Or.inr ⟨h.symm, h2⟩)
  · exact Or.inr (Or.inl h)

instance keyLe.instTrans : IsTrans (ℚ × Option ℚ) keyLe := by
  constructor
  intro a b c h1 h2
  rcases h1 with h1 | ⟨e1, u1⟩
  · rcases h2 with h2 | ⟨e2, u2⟩
    · exact Or.inl (lt_trans h1 h2)
    · exact Or.inl (e2 ▸ h1)
  · rcases h2 with h2 | ⟨e2, u2⟩
    · exact Or.inl (e1 ▸ h2)
    · refine Or.inr ⟨e1.trans e2, ?_⟩
      rcases ha2 : a.2 with _ | x <;> rcases hb2 : b.2 with _ | y <;>
        rcases hc2 : c.2 with _ | z <;>
        rw [ha2, hb2] at u1 <;> rw [hb2, hc2] at u2 <;> simp_all [upperLe]
      exact le_trans u1 u2

/-- Cohort filter (decomposition.py line 132). -/
def cohortOf (records : List Row) (race sex : String) : List Row :=
  records.filter (fun r => r.race == race && r.sex == sex)

/-- County filter (decomposition.py lines 136-137). -/
def countyRows (cohort : List Row) (county : String) : List Row :=
  cohort.filter (fun r => r.county == county)

/-- Row with a given key in the per-county index: Python dict building keeps
the last row with each key (decomposition.py lines 141-146). -/
def lastRowWith (rows : List Row) (k : ℚ × Option ℚ) : Option Row :=
  (rows.filter (fun r => decide (rkey r = k))).getLast?

/-- Sorted intersection of the key sets of the two counties
(decomposition.py line 148). -/
def commonKeysOf (aRows bRows : List Row) : List (ℚ × Option ℚ) :=
  List.insertionSort keyLe
    ((aRows.map rkey).dedup.filter (fun k => decide (k ∈ bRows.map rkey)))

/-- Preferred ax value for one key: county A, else county B
(decomposition.py lines 161-163). -/
def chosenAx (aRows bRows : List Row) (k : ℚ × Option ℚ) : Option ℚ :=
  match (lastRowWith aRows k).bind (fun r => r.ax) with
  | some v => some v
  | none => (lastRowWith bRows k).bind (fun r => r.ax)

/-- Collection of ax values over the common keys; none models the loop that
clears the collection and stops at the first missing value
(decomposition.py lines 159-167). -/
def collectAx (aRows bRows : List Row) : List (ℚ × Option ℚ) → Option (List ℚ)
  | [] => some []
  | k :: ks =>
    match chosenAx aRows bRows k with
    | none => none
    | some v => (collectAx aRows bRows ks).map (fun vs => v :: vs)

/-- The ax vector passed to the decomposition (decomposition.py lines
157-169): none when no ax column was supplied, the collected values when
every common key yields one, none otherwise. -/
def axChoice (aRows bRows : List Row) (useAx : Bool) : Option (List ℚ) :=
  if useAx then
    match collectAx aRows bRows (commonKeysOf aRows bRows) with
    | some vs => if vs.isEmpty then none else some vs
    | none => none
  else none

/-- Alignment and decomposition over the two county row sets
(decomposition.py lines 141-192); the locals common_keys, baseline_mx,
comparison_mx and total_gap are written out at their use sites. -/
def alignAndDecompose (aRows bRows : List Row)
    (county_a county_b race sex : String) (useAx : Bool) (steps : Nat) :
    Except Err (List OutRow) :=
  if (commonKeysOf aRows bRows).isEmpty then .error .noOverlap
  else
    match horiuchi_decomposition
        ((commonKeysOf aRows bRows).map
          (fun k => ((lastRowWith aRows k).map Row.mx).getD 0))
        ((commonKeysOf aRows bRows).map
          (fun k => ((lastRowWith bRows k).map Row.mx).getD 0))
        ((commonKeysOf aRows bRows).map Prod.fst)
        ((commonKeysOf aRows bRows).map Prod.snd)
        (axChoice aRows bRows useAx) steps with
    | .error e => .error e
    | .ok result =>
      .ok ((result.age_lower.zip (result.age_upper.zip result.contribution)).map
        (fun p =>
          { age_lower := p.1, age_upper := p.2.1, contribution := p.2.2,
            county_a := county_a, county_b := county_b, race := race, sex := sex,
            life_expectancy_difference := result.contribution.sum }))

/-- Mirror of decompose_between_counties (decomposition.py lines 116-192);
useAx stands for whether an ax column name was supplied. -/
def decompose_between_counties (records : List Row)
    (county_a county_b race sex : String) (useAx : Bool) (steps : Nat) :
    Except Err (List OutRow) :=
  if (cohortOf records race sex).isEmpty then .error .emptyCohort
  else if (countyRows (cohortOf records race sex) county_a).isEmpty ||
          (countyRows (cohortOf records race sex) county_b).isEmpty then
    .error .emptyCounty
  else
    alignAndDecompose (countyRows (cohortOf records race sex) county_a)
      (countyRows (cohortOf records race sex) county_b)
      county_a county_b race sex useAx steps

/-- Concrete life-table input with a negative radix; validation accepts it
because the radix is never checked. -/
def negRadixInput : LifeTableInput :=
  { age_lower := [0, 1], age_upper := [some 1, none], mx := [1, 1], ax := none, radix := -1 }

/-- Projection helper: the lx column of a build result, empty on error. -/
def lxOf (e : Except Err LifeTable) : List ℚ :=
  match e with
  | .error _ => []
  | .ok t => t.lx

/-- Concrete input whose age_lower is not increasing but which passes every
check the source actually performs. -/
def nonIncreasingLowerInput : LifeTableInput :=
  { age_lower := [5, 0], age_upper := [some 6, none], mx := [1/10, 1/10],
    ax := none, radix := 100000 }

/-! Concrete inputs and their tables, used to witness the conditional
theorems on concrete data. -/

/-- Small input with derived ax. -/
def dStd : LifeTableInput :=
  { age_lower := [0, 1], age_upper := [some 1, none], mx := [1, 1], ax := none, radix := 1 }

/-- Table built from dStd. -/
def tStd : LifeTable :=
  { age_lower := [0, 1], age_upper := [some 1, none], n := [some 1, none],
    mx := [1, 1], ax := [1/2, 1], qx := [2/3, 1], px := [1/3, 0],
    lx := [1, 1/3], dx := [2/3, 1/3], Lx := [2/3, 1/3], Tx := [1, 1/3], ex := [1, 1] }

/-- Same input with a supplied ax. -/
def dSome : LifeTableInput :=
  { age_lower := [0, 1], age_upper := [some 1, none], mx := [1, 1],
    ax := some [1/4, 1/3], radix := 1 }

/-- Table built from dSome. -/
def tSome : LifeTable :=
  { age_lower := [0, 1], age_upper := [some 1, none], n := [some 1, none],
    mx := [1, 1], ax := [1/4, 1/3], qx := [4/7, 1], px := [3/7, 0],
    lx := [1, 3/7], dx := [4/7, 3/7], Lx := [4/7, 3/7], Tx := [1, 3/7], ex := [1, 1] }

/-- Direct gap: ex[0] of the comparison table minus ex[0] of the baseline
table, with either build error propagated. -/
def directExDiff (base comp : List ℚ) (lo : List ℚ) (hi : List (Option ℚ)) : Except Err ℚ :=
  match build_life_table { age_lower := lo, age_upper := hi, mx := comp, ax := none, radix := 100000 },
        build_life_table { age_lower := lo, age_upper := hi, mx := base, ax := none, radix := 100000 } with
  | .ok tb, .ok ta => .ok (tb.ex.headD 0 - ta.ex.headD 0)
  | .error e, _ => .error e
  | _, .error e => .error e

/-- True exactly when both computations succeed and the contribution sum
misses the direct difference by at least tol. -/
def sumOutsideTol (e : Except Err DecompositionResult) (dq : Except Err ℚ) (tol : ℚ) : Bool :=
  match e, dq with
  | .ok r, .ok dv => decide (tol ≤ |r.contribution.sum - dv|)
  | _, _ => false

/-- True exactly when both computations succeed and the contribution sum is
within tol of the direct difference. -/
def sumWithinTol (e : Except Err DecompositionResult) (dq : Except Err ℚ) (tol : ℚ) : Bool :=
  match e, dq with
  | .ok r, .ok dv => decide (|r.contribution.sum - dv| < tol)
  | _, _ => false

/-! Spec-side formulation of the Horiuchi algorithm, written from the words
of the specification, against which the code translation is compared. -/

/-- Spec f(rates): ex[0] of the life table built on the shared partition
with those rates (value of the successful build). -/
def exOfRates (lo : List ℚ) (hi : List (Option ℚ)) (ax : Option (List ℚ))
    (mx : List ℚ) : ℚ :=
  exAt { age_lower := lo, age_upper := hi, mx := mx, ax := ax, radix := 100000 } 0

/-- Spec gradient: the symmetric central finite difference of f at v in
component i with h = 1e-5. -/
def specGradient (lo : List ℚ) (hi : List (Option ℚ)) (ax : Option (List ℚ))
    (v : List ℚ) (i : Nat) : ℚ :=
  (exOfRates lo hi ax (v.set i (v.getD i 0 + hstep)) -
   exOfRates lo hi ax (v.set i (v.getD i 0 - hstep))) / (2 * hstep)

/-- Spec intermediate rates at midpoint weight (j + 1/2) / steps. -/
def specMxStep (baseline delta : List ℚ) (steps j : Nat) : List ℚ :=
  (baseline.zip delta).map (fun p => p.1 + (((j : ℚ) + 1/2) / (steps : ℚ)) * p.2)

/-- Spec contribution of age group i: the sum over the steps midpoints of
gradient times delta over steps. -/
def specContribution (lo : List ℚ) (hi : List (Option ℚ)) (ax : Option (List ℚ))
    (baseline delta : List ℚ) (steps : Nat) (i : Nat) : ℚ :=
  ∑ j ∈ Finset.range steps,
    specGradient lo hi ax (specMxStep baseline delta steps j) i *
      delta.getD i 0 / (steps : ℚ)

/-- Gradient vector the spec prescribes at midpoint j: the central
difference of f at the intermediate rates, one component per index. -/
def specStepGradients (bl dl : List ℚ) (lo : List ℚ) (hi : List (Option ℚ))
    (ax : Option (List ℚ)) (steps j : Nat) : List ℚ :=
  (List.range (specMxStep bl dl steps j).length).map
    (specGradient lo hi ax (specMxStep bl dl steps j))

/-- True exactly on the three cohort-alignment errors. -/
def isAlignErr : Err → Bool
  | .emptyCohort => true
  | .emptyCounty => true
  | .noOverlap => true
  | _ => false

/-- Input rows for the C7 witness. -/
def demoRowsW : List Row :=
  [ { county := "A", race := "W", sex := "F", age_lower := 1, age_upper := none, mx := 1/50 },
    { county := "A", race := "W", sex := "F", age_lower := 0, age_upper := some 1, mx := 1/200 },
    { county := "B", race := "W", sex := "F", age_lower := 0, age_upper := some 1, mx := 3/500 },
    { county := "B", race := "W", sex := "F", age_lower := 1, age_upper := none, mx := 9/500 } ]

/-- Output of decompose_between_counties on demoRowsW with steps = 0. -/
def demoOutW : List OutRow :=
  [ { age_lower := 0, age_upper := some 1, contribution := 0, county_a := "A",
      county_b := "B", race := "W", sex := "F", life_expectancy_difference := 0 },
    { age_lower := 1, age_upper := none, contribution := 0, county_a := "A",
      county_b := "B", race := "W", sex := "F", life_expectancy_difference := 0 } ]

end USHD

deriving instance DecidableEq for Except

namespace USHD

/-! Helper lemmas about list access and the validation predicate. -/

lemma length_range_map {α : Type} (f : Nat → α) (k : Nat) :
    ((List.range k).map f).length = k := by simp

lemma getD_range_map {α : Type} (f : Nat → α) {k i : Nat} (dflt : α) (h : i < k) :
    ((List.range k).map f).getD i dflt = f i := by
  rw [List.getD_eq_getElem?_getD, List.getElem?_map, List.getElem?_range h]
  rfl

lemma headD_range_map {α : Type} (f : Nat → α) {k : Nat} (dflt : α) (h : 0 < k) :
    ((List.range k).map f).headD dflt = f 0 := by
  cases k with
  | zero => omega
  | succ n => rw [List.range_succ_eq_map]; rfl

lemma upperCheck_iff (d : LifeTableInput) :
    ((List.range d.age_lower.length).any
        (fun i => match d.age_upper.getD i none with
          | some high => decide (high ≤ d.age_lower.getD i 0)
          | none => false) = true) ↔
      ∃ i, i < d.age_lower.length ∧
        ∃ u, d.age_upper.getD i none = some u ∧ u ≤ d.age_lower.getD i 0 := by
  rw [List.any_eq_true]
  constructor
  · rintro ⟨i, hi, hp⟩
    rw [List.mem_range] at hi
    rcases hu : d.age_upper.getD i none with _ | u
    · rw [hu] at hp
      cases hp
    · rw [hu] at hp
      exact ⟨i, hi, u, hu, by simpa using hp⟩
  · rintro ⟨i, hi, u, hu, hle⟩
    refine ⟨i, List.mem_range.mpr hi, ?_⟩
    rw [hu]
    simpa using hle

lemma axCheck_iff (d : LifeTableInput) :
    ((match d.ax with
      | some a => a.length != d.age_lower.length
      | none => false) = true) ↔
      ∃ a, d.ax = some a ∧ a.length ≠ d.age_lower.length := by
  rcases hax : d.ax with _ | a
  · simp
  · simp [bne_iff_ne]

lemma openCheck_iff (d : LifeTableInput) :
    ((List.range (d.age_upper.length - 1)).any
        (fun i => (d.age_upper.getD i none).isNone) = true) ↔
      ∃ i, i + 1 < d.age_upper.length ∧ d.age_upper.getD i none = none := by
  rw [List.any_eq_true]
  constructor
  · rintro ⟨i, hi, hp⟩
    rw [List.mem_range] at hi
    rw [Option.isNone_iff_eq_none] at hp
    exact ⟨i, by omega, hp⟩
  · rintro ⟨i, hi, hp⟩
    refine ⟨i, List.mem_range.mpr (by omega), ?_⟩
    rw [hp]
    rfl

lemma validate_none_iff (d : LifeTableInput) :
    validate_inputs d = none ↔
      (d.age_lower.length = d.age_upper.length ∧ d.age_upper.length = d.mx.length) ∧
      2 ≤ d.age_lower.length ∧
      (∀ i, i < d.age_lower.length → ∀ u, d.age_upper.getD i none = some u →
        d.age_lower.getD i 0 < u) ∧
      (∀ a, d.ax = some a → a.length = d.age_lower.length) ∧
      (∀ i, i + 1 < d.age_upper.length → d.age_upper.getD i none ≠ none) := by
  constructor
  · intro h
    unfold validate_inputs at h
    split_ifs at h with h1 h2 h3 h4 h5
    refine ⟨h1, by omega, ?_, ?_, ?_⟩
    · intro i hi u hu
      by_contra hlt
      push_neg at hlt
      exact h3 ((upperCheck_iff d).mpr ⟨i, hi, u, hu, hlt⟩)
    · intro a hax
      by_contra hne
      exact h4 ((axCheck_iff d).mpr ⟨a, hax, hne⟩)
    · intro i hi hnone
      exact h5 ((openCheck_iff d).mpr ⟨i, hi, hnone⟩)
  · rintro ⟨h1, h2, h3, h4, h5⟩
    unfold validate_inputs
    rw [if_pos h1, if_neg (by omega), if_neg, if_neg, if_neg]
    · intro hc
      rcases (openCheck_iff d).mp hc with ⟨i, hi, hnone⟩
      exact h5 i hi hnone
    · intro hc
      rcases (axCheck_iff d).mp hc with ⟨a, hax, hne⟩
      exact hne (h4 a hax)
    · intro hc
      rcases (upperCheck_iff d).mp hc with ⟨i, hi, u, hu, hle⟩
      exact absurd (h3 i hi u hu) (not_lt.mpr hle)

lemma mx_nonneg_iff (d : LifeTableInput) :
    (d.mx.any (fun r => decide (r < 0)) = false) ↔ ∀ m ∈ d.mx, 0 ≤ m := by
  rw [← Bool.not_eq_true, List.any_eq_true]
  push_neg
  constructor
  · intro h m hm
    have := h m hm
    simpa using this
  · intro h m hm
    simpa using h m hm

lemma build_ok_iff (d : LifeTableInput) (t : LifeTable) :
    build_life_table d = .ok t ↔
      validate_inputs d = none ∧ (∀ m ∈ d.mx, 0 ≤ m) ∧ t = table_from d := by
  unfold build_life_table
  rcases hv : validate_inputs d with _ | e
  · rcases hneg : d.mx.any (fun r => decide (r < 0)) with _ | _
    · have hpos := (mx_nonneg_iff d).mp hneg
      simp only [hneg, Bool.false_eq_true, if_false, Except.ok.injEq]
      constructor
      · intro h
        exact ⟨by trivial, hpos, h.symm⟩
      · intro h
        exact h.2.2.symm
    · have hnot : ¬ (∀ m ∈ d.mx, 0 ≤ m) := by
        intro hc
        rw [← mx_nonneg_iff d, hneg] at hc
        cases hc
      simp only [hneg, if_true, reduceCtorEq, false_iff]
      intro h
      exact hnot h.2.1
  · simp

lemma build_isOk_iff (d : LifeTableInput) :
    (build_life_table d).isOk = true ↔
      validate_inputs d = none ∧ (∀ m ∈ d.mx, 0 ≤ m) := by
  rcases hb : build_life_table d with e | t
  · simp only [Except.isOk, Except.toBool, Bool.false_eq_true, false_iff]
    intro hc
    have h2 := (build_ok_iff d (table_from d)).mpr ⟨hc.1, hc.2, rfl⟩
    rw [hb] at h2
    cases h2
  · simp only [Except.isOk, Except.toBool, true_iff]
    have h2 := (build_ok_iff d t).mp hb
    exact ⟨h2.1, h2.2.1⟩

/-! Column projections of a computed table. -/

lemma qx_col (d : LifeTableInput) : (table_from d).qx = (List.range (kOf d)).map (qxAt d) := rfl

lemma n_col (d : LifeTableInput) : (table_from d).n = (List.range (kOf d)).map (nAt d) := rfl

lemma ax_col (d : LifeTableInput) : (table_from d).ax = (List.range (kOf d)).map (axAt d) := rfl

lemma mx_col (d : LifeTableInput) : (table_from d).mx = (List.range (kOf d)).map (mxAt d) := rfl

lemma lx_col (d : LifeTableInput) : (table_from d).lx = (List.range (kOf d)).map (lxAt d) := rfl

lemma dx_col (d : LifeTableInput) : (table_from d).dx = (List.range (kOf d)).map (dxAt d) := rfl

/-! Bounds on the table columns. -/

lemma qxAt_nonneg (d : LifeTableInput) (i : Nat) : 0 ≤ qxAt d i := by
  unfold qxAt
  rcases nAt d i with _ | w
  · norm_num
  · exact le_max_left _ _

lemma qxAt_le_one (d : LifeTableInput) (i : Nat) : qxAt d i ≤ 1 := by
  unfold qxAt
  rcases nAt d i with _ | w
  · norm_num
  · exact max_le (by norm_num) (min_le_left _ _)

lemma pxAt_nonneg (d : LifeTableInput) (i : Nat) : 0 ≤ pxAt d i := by
  unfold pxAt
  linarith [qxAt_le_one d i]

lemma pxAt_le_one (d : LifeTableInput) (i : Nat) : pxAt d i ≤ 1 := by
  unfold pxAt
  linarith [qxAt_nonneg d i]

lemma lxAt_nonneg (d : LifeTableInput) (hr : 0 ≤ d.radix) : ∀ i, 0 ≤ lxAt d i
  | 0 => hr
  | i + 1 => mul_nonneg (lxAt_nonneg d hr i) (pxAt_nonneg d i)

lemma lxAt_succ_le (d : LifeTableInput) (hr : 0 ≤ d.radix) (i : Nat) :
    lxAt d (i + 1) ≤ lxAt d i :=
  mul_le_of_le_one_right (lxAt_nonneg d hr i) (pxAt_le_one d i)

lemma range_map_getD_eq_self {α : Type} (a : List α) (dflt : α) :
    (List.range a.length).map (fun i => a.getD i dflt) = a := by
  apply List.ext_getElem
  · simp
  · intro i h1 h2
    simp [List.getD_eq_getElem?_getD, List.getElem?_eq_getElem h2]

end USHD

namespace USHD

/-! Claim theorems about the life-table builder. -/

/-- C2: build_life_table fails with a validation error, producing no table,
whenever the lengths differ, the length is below 2, a non-final age_upper is
undefined, a defined age_upper does not exceed its age_lower, a supplied ax
differs in length, or an mx value is negative; when none of these hold a
full LifeTable is returned. -/
theorem build_life_table_validation_complete (d : LifeTableInput) :
    (build_life_table d).isOk = true ↔
      ¬ (¬ (d.age_lower.length = d.age_upper.length ∧ d.age_upper.length = d.mx.length) ∨
         d.age_lower.length < 2 ∨
         (∃ i, i + 1 < d.age_upper.length ∧ d.age_upper.getD i none = none) ∨
         (∃ i, i < d.age_lower.length ∧ ∃ u, d.age_upper.getD i none = some u ∧
            u ≤ d.age_lower.getD i 0) ∨
         (∃ a, d.ax = some a ∧ a.length ≠ d.age_lower.length) ∨
         (∃ m ∈ d.mx, m < 0)) := by
  rw [build_isOk_iff, validate_none_iff]
  constructor
  · rintro ⟨⟨hl, h2, hup, hax, hop⟩, hmx⟩ (h | h | h | h | h | h)
    · exact h hl
    · omega
    · rcases h with ⟨i, hi, hnone⟩
      exact hop i hi hnone
    · rcases h with ⟨i, hi, u, hu, hle⟩
      exact absurd (hup i hi u hu) (not_lt.mpr hle)
    · rcases h with ⟨a, ha, hne⟩
      exact hne (hax a ha)
    · rcases h with ⟨m, hm, hneg⟩
      exact absurd (hmx m hm) (not_le.mpr hneg)
  · intro h
    push_neg at h
    obtain ⟨hl, h2, hop, hup, hax, hmx⟩ := h
    refine ⟨⟨hl, by omega, ?_, ?_, hop⟩, hmx⟩
    · intro i hi u hu
      exact hup i hi u hu
    · intro a ha
      exact hax a ha

/-- C3: every qx value of a built table lies in the closed unit interval;
when the final age interval is open its qx is exactly 1; and on a closed
interval with nonzero denominator, qx equals n*m / (1 + (n - a)*m) clamped
to the unit interval. -/
theorem qx_bounds_and_formula (d : LifeTableInput) (t : LifeTable)
    (hok : build_life_table d = .ok t) :
    (∀ i, i < t.qx.length → 0 ≤ t.qx.getD i 0 ∧ t.qx.getD i 0 ≤ 1) ∧
    (d.age_upper.getD (d.mx.length - 1) none = none →
      t.qx.getD (d.mx.length - 1) 0 = 1) ∧
    (∀ i, i < t.qx.length → ∀ w, t.n.getD i none = some w →
      1 + (w - t.ax.getD i 0) * t.mx.getD i 0 ≠ 0 →
      t.qx.getD i 0 =
        max 0 (min 1 (w * t.mx.getD i 0 /
          (1 + (w - t.ax.getD i 0) * t.mx.getD i 0)))) := by
  obtain ⟨hv, hmx, ht⟩ := (build_ok_iff d t).mp hok
  obtain ⟨⟨hl1, hl2⟩, h2, _, _, _⟩ := (validate_none_iff d).mp hv
  have hk : 2 ≤ kOf d := by unfold kOf; omega
  subst ht
  refine ⟨?_, ?_, ?_⟩
  · intro i hi
    rw [qx_col, length_range_map] at hi
    rw [qx_col, getD_range_map _ _ hi]
    exact ⟨qxAt_nonneg d i, qxAt_le_one d i⟩
  · intro hlast
    have hi : d.mx.length - 1 < kOf d := by unfold kOf; omega
    rw [qx_col, getD_range_map _ _ hi]
    unfold qxAt
    have hn : nAt d (d.mx.length - 1) = none := by
      unfold nAt hiAt
      rw [hlast]
      rfl
    rw [hn]
  · intro i hi w hw hden
    rw [qx_col, length_range_map] at hi
    rw [n_col, getD_range_map _ _ hi] at hw
    rw [ax_col, getD_range_map _ _ hi] at hden ⊢
    rw [mx_col, getD_range_map _ _ hi] at hden ⊢
    rw [qx_col, getD_range_map _ _ hi]
    unfold qxAt
    rw [hw]
    simp only [if_neg hden]

/-- C4 counterexample: a valid input (it passes validation and returns a
table) whose radix is negative makes lx strictly increasing from row 0 to
row 1, so lx is not non-increasing for every valid input. -/
theorem lx_not_nonincreasing_for_negative_radix :
    (build_life_table negRadixInput).isOk = true ∧
      (lxOf (build_life_table negRadixInput)).getD 0 0 <
        (lxOf (build_life_table negRadixInput)).getD 1 0 :=
  ⟨by decide, by decide⟩

/-- C4 (amended): for every input accepted by build_life_table whose radix
is non-negative, lx starts at the radix and is non-increasing. -/
theorem lx_nonincreasing (d : LifeTableInput) (t : LifeTable)
    (hok : build_life_table d = .ok t) (hr : 0 ≤ d.radix) :
    t.lx.getD 0 0 = d.radix ∧
    (∀ i, i + 1 < t.lx.length → t.lx.getD (i + 1) 0 ≤ t.lx.getD i 0) := by
  obtain ⟨hv, hmx, ht⟩ := (build_ok_iff d t).mp hok
  obtain ⟨⟨hl1, hl2⟩, h2, _, _, _⟩ := (validate_none_iff d).mp hv
  have hk : 2 ≤ kOf d := by unfold kOf; omega
  subst ht
  constructor
  · rw [lx_col, getD_range_map _ _ (by omega : 0 < kOf d)]
    rfl
  · intro i hi
    rw [lx_col, length_range_map] at hi
    rw [lx_col, getD_range_map _ _ hi, getD_range_map _ _ (by omega : i < kOf d)]
    exact lxAt_succ_le d hr i

/-- C5: in every built table, dx equals lx times qx row by row, and each lx
entry below the last equals the previous lx times one minus the previous
qx, as exact equalities of the embedded arithmetic. -/
theorem dx_lx_roundtrip (d : LifeTableInput) (t : LifeTable)
    (hok : build_life_table d = .ok t) :
    (∀ i, i < t.dx.length → t.dx.getD i 0 = t.lx.getD i 0 * t.qx.getD i 0) ∧
    (∀ i, i + 1 < t.lx.length →
      t.lx.getD (i + 1) 0 = t.lx.getD i 0 * (1 - t.qx.getD i 0)) := by
  obtain ⟨hv, hmx, ht⟩ := (build_ok_iff d t).mp hok
  subst ht
  constructor
  · intro i hi
    rw [dx_col, length_range_map] at hi
    rw [dx_col, getD_range_map _ _ hi, lx_col, getD_range_map _ _ hi,
      qx_col, getD_range_map _ _ hi]
    rfl
  · intro i hi
    rw [lx_col, length_range_map] at hi
    rw [lx_col, getD_range_map _ _ hi, getD_range_map _ _ (by omega : i < kOf d),
      qx_col, getD_range_map _ _ (by omega : i < kOf d)]
    rfl

/-- C6 counterexample: an input whose age_lower is not strictly increasing
for which build_life_table nevertheless returns a full table, so no
strict-increase validation exists. -/
theorem no_strict_increase_check_cex :
    ¬ List.Chain' (fun a b => a < b) nonIncreasingLowerInput.age_lower ∧
      (build_life_table nonIncreasingLowerInput).isOk = true := by
  constructor
  · intro h
    have h5 : (5 : ℚ) < 0 := List.chain'_cons.mp h |>.1
    norm_num at h5
  · decide

/-- C6 (amended): build_life_table performs no monotonicity check on
age_lower: an input whose age_lower is not strictly increasing still
returns a full LifeTable whenever the implemented checks hold. -/
theorem no_strict_increase_check (d : LifeTableInput)
    (hmono : ¬ List.Chain' (fun a b => a < b) d.age_lower)
    (hlen : d.age_lower.length = d.age_upper.length ∧ d.age_upper.length = d.mx.length)
    (h2 : 2 ≤ d.age_lower.length)
    (hup : ∀ i, i < d.age_lower.length → ∀ u, d.age_upper.getD i none = some u →
      d.age_lower.getD i 0 < u)
    (hax : ∀ a, d.ax = some a → a.length = d.age_lower.length)
    (hop : ∀ i, i + 1 < d.age_upper.length → d.age_upper.getD i none ≠ none)
    (hmx : ∀ m ∈ d.mx, 0 ≤ m) :
    (build_life_table d).isOk = true := by
  rw [build_isOk_iff, validate_none_iff]
  exact ⟨⟨hlen, h2, hup, hax, hop⟩, hmx⟩

/-- C8: when ax is omitted the built table derives it as
(age_upper - age_lower) / 2 on closed intervals and 1 / max(mx, 1e-12) on
the open final interval; a supplied ax is used unchanged. -/
theorem ax_derivation (d : LifeTableInput) (t : LifeTable)
    (hok : build_life_table d = .ok t) :
    (d.ax = none → ∀ i, i < t.ax.length →
      t.ax.getD i 0 =
        (match d.age_upper.getD i none with
         | none => 1 / max (d.mx.getD i 0) (1 / 10 ^ 12)
         | some u => (u - d.age_lower.getD i 0) / 2)) ∧
    (∀ a, d.ax = some a → t.ax = a) := by
  obtain ⟨hv, hmx, ht⟩ := (build_ok_iff d t).mp hok
  obtain ⟨⟨hl1, hl2⟩, h2, _, hax, _⟩ := (validate_none_iff d).mp hv
  subst ht
  constructor
  · intro hnone i hi
    rw [ax_col, length_range_map] at hi
    rw [ax_col, getD_range_map _ _ hi]
    unfold axAt
    rw [hnone]
    rfl
  · intro a ha
    have hlen : a.length = kOf d := by
      have := hax a ha
      unfold kOf
      omega
    rw [ax_col]
    have hfun : axAt d = fun i => a.getD i 0 := by
      funext i
      unfold axAt
      rw [ha]
    rw [hfun, ← hlen, range_map_getD_eq_self]

/-- Witness for the C3 theorem at dStd. -/
theorem qx_bounds_and_formula_witness :
    (0 ≤ tStd.qx.getD 0 0 ∧ tStd.qx.getD 0 0 ≤ 1) ∧ tStd.qx.getD 1 0 = 1 :=
  ⟨(qx_bounds_and_formula dStd tStd (by decide)).1 0 (by decide),
   (qx_bounds_and_formula dStd tStd (by decide)).2.1 (by decide)⟩

/-- Witness for the C4 amended theorem at dStd. -/
theorem lx_nonincreasing_witness :
    tStd.lx.getD 0 0 = dStd.radix ∧ tStd.lx.getD 1 0 ≤ tStd.lx.getD 0 0 :=
  ⟨(lx_nonincreasing dStd tStd (by decide) (by decide)).1,
   (lx_nonincreasing dStd tStd (by decide) (by decide)).2 0 (by decide)⟩

/-- Witness for the C5 theorem at dStd. -/
theorem dx_lx_roundtrip_witness :
    tStd.dx.getD 0 0 = tStd.lx.getD 0 0 * tStd.qx.getD 0 0 ∧
      tStd.lx.getD 1 0 = tStd.lx.getD 0 0 * (1 - tStd.qx.getD 0 0) :=
  ⟨(dx_lx_roundtrip dStd tStd (by decide)).1 0 (by decide),
   (dx_lx_roundtrip dStd tStd (by decide)).2 0 (by decide)⟩

/-- Witness for the C6 amended theorem at the non-increasing input. -/
theorem no_strict_increase_check_witness :
    (build_life_table nonIncreasingLowerInput).isOk = true := by
  apply no_strict_increase_check nonIncreasingLowerInput
  · intro h
    have h5 : (5 : ℚ) < 0 := List.chain'_cons.mp h |>.1
    norm_num at h5
  · decide
  · decide
  · intro i hi u hu
    have hi2 : i < 2 := by simpa [nonIncreasingLowerInput] using hi
    rcases (by omega : i = 0 ∨ i = 1) with rfl | rfl
    · rw [show nonIncreasingLowerInput.age_upper.getD 0 none = some 6 from rfl] at hu
      injection hu with h
      rw [← h]
      norm_num [nonIncreasingLowerInput]
    · rw [show nonIncreasingLowerInput.age_upper.getD 1 none = none from rfl] at hu
      cases hu
  · intro a ha
    cases ha
  · intro i hi
    have hi2 : i + 1 < 2 := by simpa [nonIncreasingLowerInput] using hi
    rcases (by omega : i = 0) with rfl
    decide
  · decide

/-- Witness for the C8 theorem, one application per branch of the claim. -/
theorem ax_derivation_witness :
    tStd.ax.getD 0 0 = (1 - 0) / 2 ∧ tSome.ax = [1/4, 1/3] := by
  constructor
  · have h := (ax_derivation dStd tStd (by decide)).1 rfl 0 (by decide)
    rw [h]
    decide
  · exact (ax_derivation dSome tSome (by decide)).2 [1/4, 1/3] rfl

/-! Claims about the decomposition engine tolerances and edge cases. -/

/-- C9 counterexample: rate vectors over the valid partition 0-1, 1-plus
(baseline open-interval rate 1e-4, comparison 2e-4) for which
horiuchi_decomposition at steps = 50 succeeds but its contribution sum
misses the direct life-expectancy difference by at least 1e-3 (the actual
error is about 28.8 years), so the universal 1e-3 bound fails. -/
theorem horiuchi_tolerance_cex :
    sumOutsideTol
      (horiuchi_decomposition [1/100, 1/10^4] [1/100, 2/10^4] [0, 1] [some 1, none] none 50)
      (directExDiff [1/100, 1/10^4] [1/100, 2/10^4] [0, 1] [some 1, none])
      (1/1000) = true := by
  decide

/-- C9 (amended): at the specification's example partition 0-1, 1-5, 5-plus
with baseline rates 0.005, 0.0008, 0.02 and comparison rates 0.006, 0.001,
0.018, the contribution sum at steps = 50 is within 1e-3 of the direct
life-expectancy difference. -/
theorem horiuchi_tolerance_example :
    sumWithinTol
      (horiuchi_decomposition [1/200, 1/1250, 1/50] [3/500, 1/1000, 9/500]
        [0, 1, 5] [some 1, some 5, none] none 50)
      (directExDiff [1/200, 1/1250, 1/50] [3/500, 1/1000, 9/500]
        [0, 1, 5] [some 1, some 5, none])
      (1/1000) = true := by
  decide

/-- C10: with steps = 0 horiuchi_decomposition raises nothing and returns a
result whose contribution entries are all exactly zero. -/
theorem horiuchi_steps_zero (b c : List ℚ) (lo : List ℚ) (hi : List (Option ℚ))
    (ax : Option (List ℚ)) (hlen : b.length = c.length) :
    horiuchi_decomposition b c lo hi ax 0 =
      .ok { age_lower := lo, age_upper := hi,
            contribution := List.replicate b.length 0 } := by
  unfold horiuchi_decomposition
  rw [if_neg (by omega)]
  simp only [List.range_zero, foldE, List.map_const', List.length_map, List.length_zip,
    hlen, Nat.min_self]

/-- Witness for C10 at concrete distinct rate vectors. -/
theorem horiuchi_steps_zero_witness :
    horiuchi_decomposition [1/10, 1/5] [1/5, 1/10] [0, 1] [some 1, none] none 0 =
      .ok { age_lower := [0, 1], age_upper := [some 1, none],
            contribution := List.replicate 2 0 } :=
  horiuchi_steps_zero [1/10, 1/5] [1/5, 1/10] [0, 1] [some 1, none] none (by decide)

/-! Success-value lemmas for the exception-propagating combinators. -/

lemma mapE_ok_eq {α β : Type} (g : α → Except Err β) (gp : α → β)
    (hg : ∀ a b, g a = .ok b → b = gp a) :
    ∀ (l : List α) (out : List β), mapE g l = .ok out → out = l.map gp := by
  intro l
  induction l with
  | nil =>
    intro out h
    unfold mapE at h
    injection h with h2
    rw [← h2]
    rfl
  | cons a as ih =>
    intro out h
    unfold mapE at h
    rcases hga : g a with e | b <;> rw [hga] at h
    · cases h
    · rcases hmt : mapE g as with e | bs <;> rw [hmt] at h
      · cases h
      · injection h with h2
        rw [← h2, List.map_cons, hg a b hga, ih bs hmt]

lemma mapE_ok_length {α β : Type} (g : α → Except Err β) :
    ∀ (l : List α) (out : List β), mapE g l = .ok out → out.length = l.length := by
  intro l
  induction l with
  | nil =>
    intro out h
    unfold mapE at h
    injection h with h2
    rw [← h2]
    rfl
  | cons a as ih =>
    intro out h
    unfold mapE at h
    rcases hga : g a with e | b <;> rw [hga] at h
    · cases h
    · rcases hmt : mapE g as with e | bs <;> rw [hmt] at h
      · cases h
      · injection h with h2
        rw [← h2]
        simpa using ih bs hmt

lemma foldE_ok_eq {α β : Type} (f : β → α → Except Err β) (fp : β → α → β)
    (hf : ∀ acc a b2, f acc a = .ok b2 → b2 = fp acc a) :
    ∀ (l : List α) (init out : β), foldE f init l = .ok out → out = l.foldl fp init := by
  intro l
  induction l with
  | nil =>
    intro init out h
    unfold foldE at h
    injection h with h2
    rw [← h2]
    rfl
  | cons a as ih =>
    intro init out h
    unfold foldE at h
    rcases hfa : f init a with e | b2 <;> rw [hfa] at h
    · cases h
    · rw [List.foldl_cons, ← hf init a b2 hfa]
      exact ih b2 out h

/-! Pointwise access lemmas for the contribution update. -/

lemma map_getD {α β : Type} (f : α → β) (l : List α) (i : Nat) (d1 : α) (d2 : β)
    (h : i < l.length) :
    (l.map f).getD i d2 = f (l.getD i d1) := by
  rw [List.getD_eq_getElem?_getD, List.getElem?_map, List.getElem?_eq_getElem h,
    List.getD_eq_getElem?_getD, List.getElem?_eq_getElem h]
  rfl

lemma zip_getD {α β : Type} :
    ∀ (l1 : List α) (l2 : List β) (i : Nat) (d1 : α) (d2 : β),
      i < l1.length → i < l2.length →
      (l1.zip l2).getD i (d1, d2) = (l1.getD i d1, l2.getD i d2)
  | [], _, i, _, _, h1, _ => by simp at h1
  | _ :: _, [], i, _, _, _, h2 => by simp at h2
  | a :: l1, b :: l2, 0, d1, d2, _, _ => rfl
  | a :: l1, b :: l2, (i+1), d1, d2, h1, h2 => by
    simpa using zip_getD l1 l2 i d1 d2 (by simpa using h1) (by simpa using h2)

lemma step_getD (acc gj dl : List ℚ) (S : ℚ) {k i : Nat}
    (ha : acc.length = k) (hg : gj.length = k) (hd : dl.length = k) (hi : i < k) :
    ((acc.zip (gj.zip dl)).map (fun p => p.1 + p.2.1 * p.2.2 / S)).getD i 0 =
      acc.getD i 0 + gj.getD i 0 * dl.getD i 0 / S := by
  have hz1 : i < (gj.zip dl).length := by rw [List.length_zip]; omega
  have hz2 : i < (acc.zip (gj.zip dl)).length := by rw [List.length_zip]; omega
  rw [map_getD _ _ i ((0 : ℚ), ((0 : ℚ), (0 : ℚ))) _ hz2,
    zip_getD _ _ i _ _ (by omega) hz1, zip_getD _ _ i _ _ (by omega) (by omega)]

lemma foldl_contrib (dl : List ℚ) (g : Nat → List ℚ) (S : ℚ) (k : Nat)
    (hd : dl.length = k) (hg : ∀ j, (g j).length = k) :
    ∀ (n : Nat) (init : List ℚ), init.length = k →
      (((List.range n).foldl
          (fun acc j => (acc.zip ((g j).zip dl)).map (fun p => p.1 + p.2.1 * p.2.2 / S))
          init).length = k ∧
      ∀ i, i < k →
        ((List.range n).foldl
          (fun acc j => (acc.zip ((g j).zip dl)).map (fun p => p.1 + p.2.1 * p.2.2 / S))
          init).getD i 0 =
          init.getD i 0 + ∑ j ∈ Finset.range n, (g j).getD i 0 * dl.getD i 0 / S) := by
  intro n
  induction n with
  | zero =>
    intro init hinit
    exact ⟨hinit, fun i hi => by simp⟩
  | succ n ih =>
    intro init hinit
    rw [List.range_succ, List.foldl_append, List.foldl_cons, List.foldl_nil]
    obtain ⟨ihlen, ihval⟩ := ih init hinit
    constructor
    · rw [List.length_map, List.length_zip, List.length_zip, ihlen, hg n, hd]
      simp
    · intro i hi
      rw [step_getD _ _ _ _ ihlen (hg n) hd hi, ihval i hi, Finset.sum_range_succ]
      ring

lemma ex_col (d : LifeTableInput) :
    (table_from d).ex = (List.range (kOf d)).map (exAt d) := rfl

lemma life_exp_ok_eq (v lo : List ℚ) (hi : List (Option ℚ)) (ax : Option (List ℚ))
    (q : ℚ) (h : life_expectancy_from_mx v lo hi ax = .ok q) :
    q = exOfRates lo hi ax v := by
  unfold life_expectancy_from_mx at h
  rcases hb : build_life_table
      { age_lower := lo, age_upper := hi, mx := v, ax := ax, radix := 100000 } with e | t <;>
    rw [hb] at h
  · simp [Except.map] at h
  · simp only [Except.map] at h
    injection h with h2
    obtain ⟨hv, hmx, ht⟩ := (build_ok_iff _ _).mp hb
    obtain ⟨⟨hl1, hl2⟩, hk2, _, _, _⟩ := (validate_none_iff _).mp hv
    subst ht
    rw [← h2, ex_col, headD_range_map]
    · rfl
    · unfold kOf
      dsimp only at hl1 hl2 hk2 ⊢
      omega

lemma numeric_gradient_ok_eq (lo : List ℚ) (hi : List (Option ℚ))
    (ax : Option (List ℚ)) (v : List ℚ) (g : List ℚ)
    (h : numeric_gradient (fun w => life_expectancy_from_mx w lo hi ax) v hstep = .ok g) :
    g = (List.range v.length).map (specGradient lo hi ax v) := by
  unfold numeric_gradient at h
  refine mapE_ok_eq _ _ ?_ _ _ h
  intro idx q hq
  simp only [] at hq
  rcases hup : life_expectancy_from_mx (v.set idx (v.getD idx 0 + hstep)) lo hi ax
    with e | uq <;> rw [hup] at hq
  · cases hq
  · rcases hlow :
        life_expectancy_from_mx (v.set idx (v.getD idx 0 + hstep - 2 * hstep)) lo hi ax
      with e | lq <;> rw [hlow] at hq
    · cases hq
    · injection hq with h2
      rw [← h2, life_exp_ok_eq _ _ _ _ _ hup, life_exp_ok_eq _ _ _ _ _ hlow]
      unfold specGradient
      have harg : v.getD idx 0 + hstep - 2 * hstep = v.getD idx 0 - hstep := by ring
      rw [harg]

lemma specMxStep_length (bl dl : List ℚ) (steps j : Nat) :
    (specMxStep bl dl steps j).length = min bl.length dl.length := by
  unfold specMxStep
  rw [List.length_map, List.length_zip]

lemma specStepGradients_length (bl dl : List ℚ) (lo : List ℚ)
    (hi : List (Option ℚ)) (ax : Option (List ℚ)) (steps j : Nat) :
    (specStepGradients bl dl lo hi ax steps j).length = min bl.length dl.length := by
  unfold specStepGradients
  rw [length_range_map, specMxStep_length]

lemma horiuchiStep_ok_eq (bl dl : List ℚ) (lo : List ℚ) (hi : List (Option ℚ))
    (ax : Option (List ℚ)) (steps : Nat) (acc : List ℚ) (j : Nat) (b2 : List ℚ)
    (h : horiuchiStep bl dl lo hi ax steps acc j = .ok b2) :
    b2 = (acc.zip ((specStepGradients bl dl lo hi ax steps j).zip dl)).map
      (fun p => p.1 + p.2.1 * p.2.2 / (steps : ℚ)) := by
  unfold horiuchiStep at h
  rcases hng : numeric_gradient
      (fun values => life_expectancy_from_mx values lo hi ax)
      ((bl.zip dl).map (fun p => p.1 + (((j : ℚ) + 1/2) / (steps : ℚ)) * p.2))
      hstep with e | grad <;> rw [hng] at h
  · cases h
  · injection h with h3
    rw [← h3]
    have hg2 := numeric_gradient_ok_eq lo hi ax _ _ hng
    rw [hg2]
    rfl

/-- C1: whenever horiuchi_decomposition succeeds on same-length rate
vectors with steps at least 1, the returned age_lower and age_upper equal
the shared partition, and each contribution is the sum over the steps
midpoints of the central-difference gradient (h = 1e-5) of the
life-expectancy function times delta over steps, with
delta = comparison - baseline and intermediate rates
baseline + ((j + 1/2) / steps) * delta. -/
theorem horiuchi_matches_spec (b c lo : List ℚ) (hi : List (Option ℚ))
    (ax : Option (List ℚ)) (steps : Nat) (res : DecompositionResult)
    (hlen : b.length = c.length) (hsteps : 1 ≤ steps)
    (hok : horiuchi_decomposition b c lo hi ax steps = .ok res) :
    res.age_lower = lo ∧ res.age_upper = hi ∧
    res.contribution.length = b.length ∧
    ∀ i, i < b.length →
      res.contribution.getD i 0 =
        specContribution lo hi ax b ((b.zip c).map (fun p => p.2 - p.1)) steps i := by
  unfold horiuchi_decomposition at hok
  rw [if_neg (by omega)] at hok
  set dl := (b.zip c).map (fun p => p.2 - p.1) with hdl
  have hdlen : dl.length = b.length := by
    rw [hdl, List.length_map, List.length_zip, hlen, Nat.min_self]
  have hglen : ∀ j : Nat,
      (specStepGradients b dl lo hi ax steps j).length = b.length := by
    intro j
    rw [specStepGradients_length, hdlen, Nat.min_self]
  rcases hfold : foldE (horiuchiStep b dl lo hi ax steps)
      (dl.map (fun _ => (0 : ℚ))) (List.range steps) with e | contribs <;>
    rw [hfold] at hok
  · cases hok
  · injection hok with h2
    have hstepfun : ∀ (acc : List ℚ) (j : Nat) (b2 : List ℚ),
        horiuchiStep b dl lo hi ax steps acc j = .ok b2 →
        b2 = (acc.zip ((specStepGradients b dl lo hi ax steps j).zip dl)).map
          (fun p => p.1 + p.2.1 * p.2.2 / (steps : ℚ)) :=
      fun acc j b2 hs => horiuchiStep_ok_eq b dl lo hi ax steps acc j b2 hs
    have hcontribs := foldE_ok_eq _ _ hstepfun _ _ _ hfold
    have hfoldl := foldl_contrib dl (specStepGradients b dl lo hi ax steps)
      ((steps : ℚ)) b.length hdlen hglen steps (dl.map (fun _ => (0 : ℚ)))
      (by rw [List.length_map, hdlen])
    rw [← h2]
    refine ⟨rfl, rfl, ?_, ?_⟩
    · rw [hcontribs]
      exact hfoldl.1
    · intro i hi2
      rw [hcontribs, hfoldl.2 i hi2]
      rw [map_getD _ _ i 0 _ (by rw [hdlen]; exact hi2)]
      unfold specContribution
      rw [zero_add]
      refine Finset.sum_congr rfl ?_
      intro j hj
      unfold specStepGradients
      rw [getD_range_map _ _ (by rw [specMxStep_length, hdlen, Nat.min_self]; exact hi2)]

/-- Witness for C1 at equal concrete rate vectors with one step. -/
theorem horiuchi_matches_spec_witness :
    ({ age_lower := [0, 1], age_upper := [some 1, none], contribution := [0, 0] } :
        DecompositionResult).contribution.getD 0 0 =
      specContribution [0, 1] [some 1, none] none [1/10, 1/10]
        (([1/10, 1/10].zip [1/10, 1/10]).map (fun p => p.2 - p.1)) 1 0 :=
  (horiuchi_matches_spec [1/10, 1/10] [1/10, 1/10] [0, 1] [some 1, none] none 1
    { age_lower := [0, 1], age_upper := [some 1, none], contribution := [0, 0] }
    (by decide) (by decide) (by decide)).2.2.2 0 (by decide)

/-! Error classification for the cohort aligner: the three alignment errors
can only arise from the aligner itself, never from the life-table layer. -/

lemma validate_some_not_align (d : LifeTableInput) (e : Err)
    (h : validate_inputs d = some e) : isAlignErr e = false := by
  unfold validate_inputs at h
  split_ifs at h
  all_goals
    first
      | (injection h with h2; rw [← h2]; rfl)
      | cases h

lemma build_error_not_align (d : LifeTableInput) (e : Err)
    (h : build_life_table d = .error e) : isAlignErr e = false := by
  unfold build_life_table at h
  rcases hv : validate_inputs d with _ | e2 <;> rw [hv] at h
  · rcases hneg : d.mx.any (fun r => decide (r < 0)) with _ | _ <;> rw [hneg] at h
    · cases h
    · injection h with h2
      rw [← h2]
      rfl
  · injection h with h2
    rw [← h2]
    exact validate_some_not_align d e2 hv

lemma life_exp_error_not_align (v lo : List ℚ) (hi : List (Option ℚ))
    (ax : Option (List ℚ)) (e : Err)
    (h : life_expectancy_from_mx v lo hi ax = .error e) : isAlignErr e = false := by
  unfold life_expectancy_from_mx at h
  rcases hb : build_life_table
      { age_lower := lo, age_upper := hi, mx := v, ax := ax, radix := 100000 } with e2 | t <;>
    rw [hb] at h
  · simp only [Except.map] at h
    injection h with h2
    rw [← h2]
    exact build_error_not_align _ _ hb
  · simp [Except.map] at h

lemma mapE_error_mem {α β : Type} (g : α → Except Err β) :
    ∀ (l : List α) (e : Err), mapE g l = .error e → ∃ a ∈ l, g a = .error e := by
  intro l
  induction l with
  | nil =>
    intro e h
    unfold mapE at h
    cases h
  | cons a as ih =>
    intro e h
    unfold mapE at h
    rcases hga : g a with e2 | b <;> rw [hga] at h
    · injection h with h2
      exact ⟨a, List.mem_cons_self a as, by rw [hga, h2]⟩
    · rcases hmt : mapE g as with e2 | bs <;> rw [hmt] at h
      · injection h with h2
        obtain ⟨a2, ha2, hga2⟩ := ih e (by rw [hmt, h2])
        exact ⟨a2, List.mem_cons_of_mem a ha2, hga2⟩
      · cases h

lemma foldE_error_mem {α β : Type} (f : β → α → Except Err β) :
    ∀ (l : List α) (init : β) (e : Err), foldE f init l = .error e →
      ∃ b2 a, a ∈ l ∧ f b2 a = .error e := by
  intro l
  induction l with
  | nil =>
    intro init e h
    unfold foldE at h
    cases h
  | cons a as ih =>
    intro init e h
    unfold foldE at h
    rcases hfa : f init a with e2 | b2 <;> rw [hfa] at h
    · injection h with h2
      exact ⟨init, a, List.mem_cons_self a as, by rw [hfa, h2]⟩
    · obtain ⟨b3, a2, ha2, hf2⟩ := ih b2 e h
      exact ⟨b3, a2, List.mem_cons_of_mem a ha2, hf2⟩

lemma numeric_gradient_error_not_align (lo : List ℚ) (hi : List (Option ℚ))
    (ax : Option (List ℚ)) (v : List ℚ) (step : ℚ) (e : Err)
    (h : numeric_gradient (fun w => life_expectancy_from_mx w lo hi ax) v step =
      .error e) : isAlignErr e = false := by
  unfold numeric_gradient at h
  obtain ⟨idx, hmem, hidx⟩ := mapE_error_mem _ _ _ h
  simp only [] at hidx
  rcases hup : life_expectancy_from_mx (v.set idx (v.getD idx 0 + step)) lo hi ax
    with e2 | uq <;> rw [hup] at hidx
  · injection hidx with h2
    rw [← h2]
    exact life_exp_error_not_align _ _ _ _ _ hup
  · rcases hlow :
        life_expectancy_from_mx (v.set idx (v.getD idx 0 + step - 2 * step)) lo hi ax
      with e2 | lq <;> rw [hlow] at hidx
    · injection hidx with h2
      rw [← h2]
      exact life_exp_error_not_align _ _ _ _ _ hlow
    · cases hidx

lemma horiuchiStep_error_not_align (bl dl : List ℚ) (lo : List ℚ)
    (hi : List (Option ℚ)) (ax : Option (List ℚ)) (steps : Nat)
    (acc : List ℚ) (j : Nat) (e : Err)
    (h : horiuchiStep bl dl lo hi ax steps acc j = .error e) :
    isAlignErr e = false := by
  unfold horiuchiStep at h
  rcases hng : numeric_gradient
      (fun values => life_expectancy_from_mx values lo hi ax)
      ((bl.zip dl).map (fun p => p.1 + (((j : ℚ) + 1/2) / (steps : ℚ)) * p.2))
      hstep with e2 | grad <;> rw [hng] at h
  · injection h with h2
    rw [← h2]
    exact numeric_gradient_error_not_align _ _ _ _ _ _ hng
  · cases h

lemma horiuchi_error_not_align (b c lo : List ℚ) (hi : List (Option ℚ))
    (ax : Option (List ℚ)) (steps : Nat) (e : Err)
    (h : horiuchi_decomposition b c lo hi ax steps = .error e) :
    isAlignErr e = false := by
  unfold horiuchi_decomposition at h
  by_cases hlen : b.length ≠ c.length
  · rw [if_pos hlen] at h
    injection h with h2
    rw [← h2]
    rfl
  · rw [if_neg hlen] at h
    rcases hfold : foldE
        (horiuchiStep b ((b.zip c).map (fun p => p.2 - p.1)) lo hi ax steps)
        (((b.zip c).map (fun p => p.2 - p.1)).map (fun _ => (0 : ℚ)))
        (List.range steps) with e2 | contribs <;> rw [hfold] at h
    · injection h with h2
      obtain ⟨b2, j, hmem, hstep2⟩ := foldE_error_mem _ _ _ _ (by rw [hfold, h2])
      exact horiuchiStep_error_not_align _ _ _ _ _ _ _ _ _ hstep2
    · cases h

/-! Length preservation through the successful fold. -/

lemma foldE_ok_invariant {α β : Type} (f : β → α → Except Err β) (P : β → Prop)
    (hstep2 : ∀ acc a b2, P acc → f acc a = .ok b2 → P b2) :
    ∀ (l : List α) (init out : β), P init → foldE f init l = .ok out → P out := by
  intro l
  induction l with
  | nil =>
    intro init out hp h
    unfold foldE at h
    injection h with h2
    rw [← h2]
    exact hp
  | cons a as ih =>
    intro init out hp h
    unfold foldE at h
    rcases hfa : f init a with e | b2 <;> rw [hfa] at h
    · cases h
    · exact ih b2 out (hstep2 init a b2 hp hfa) h

lemma horiuchi_ok_shape (b c lo : List ℚ) (hi : List (Option ℚ))
    (ax : Option (List ℚ)) (steps : Nat) (res : DecompositionResult)
    (hok : horiuchi_decomposition b c lo hi ax steps = .ok res) :
    res.age_lower = lo ∧ res.age_upper = hi ∧
      res.contribution.length = b.length := by
  unfold horiuchi_decomposition at hok
  by_cases hlen : b.length ≠ c.length
  · rw [if_pos hlen] at hok
    cases hok
  · rw [if_neg hlen] at hok
    push_neg at hlen
    set dl := (b.zip c).map (fun p => p.2 - p.1) with hdl
    have hdlen : dl.length = b.length := by
      rw [hdl, List.length_map, List.length_zip, hlen, Nat.min_self]
    rcases hfold : foldE (horiuchiStep b dl lo hi ax steps)
        (dl.map (fun _ => (0 : ℚ))) (List.range steps) with e | contribs <;>
      rw [hfold] at hok
    · cases hok
    · injection hok with h2
      rw [← h2]
      refine ⟨rfl, rfl, ?_⟩
      refine foldE_ok_invariant _ (fun l => l.length = b.length) ?_ _ _ _
        (by simpa using hdlen) hfold
      intro acc j b2 hacc hsj
      rw [horiuchiStep_ok_eq _ _ _ _ _ _ _ _ _ hsj, List.length_map, List.length_zip,
        List.length_zip, specStepGradients_length, hacc, hdlen]
      simp

/-! Behaviour of the aligner branches. -/

lemma alignAndDecompose_error_shape (aRows bRows : List Row)
    (ca cb r s : String) (useAx : Bool) (steps : Nat) (e : Err)
    (h : alignAndDecompose aRows bRows ca cb r s useAx steps = .error e) :
    e = .noOverlap ∨ isAlignErr e = false := by
  unfold alignAndDecompose at h
  by_cases h3 : (commonKeysOf aRows bRows).isEmpty
  · rw [if_pos h3] at h
    injection h with h2
    exact Or.inl h2.symm
  · rw [if_neg h3] at h
    rcases hh : horiuchi_decomposition
        ((commonKeysOf aRows bRows).map
          (fun k => ((lastRowWith aRows k).map Row.mx).getD 0))
        ((commonKeysOf aRows bRows).map
          (fun k => ((lastRowWith bRows k).map Row.mx).getD 0))
        ((commonKeysOf aRows bRows).map Prod.fst)
        ((commonKeysOf aRows bRows).map Prod.snd)
        (axChoice aRows bRows useAx) steps with e2 | result <;> rw [hh] at h
    · injection h with h2
      rw [← h2]
      exact Or.inr (horiuchi_error_not_align _ _ _ _ _ _ _ hh)
    · cases h

lemma alignAndDecompose_noOverlap_iff (aRows bRows : List Row)
    (ca cb r s : String) (useAx : Bool) (steps : Nat) :
    (alignAndDecompose aRows bRows ca cb r s useAx steps = .error .noOverlap ↔
      commonKeysOf aRows bRows = []) := by
  unfold alignAndDecompose
  by_cases h3 : (commonKeysOf aRows bRows).isEmpty
  · rw [if_pos h3]
    simp only [List.isEmpty_iff] at h3
    simp [h3]
  · rw [if_neg h3]
    simp only [List.isEmpty_iff] at h3
    rcases hh : horiuchi_decomposition
        ((commonKeysOf aRows bRows).map
          (fun k => ((lastRowWith aRows k).map Row.mx).getD 0))
        ((commonKeysOf aRows bRows).map
          (fun k => ((lastRowWith bRows k).map Row.mx).getD 0))
        ((commonKeysOf aRows bRows).map Prod.fst)
        ((commonKeysOf aRows bRows).map Prod.snd)
        (axChoice aRows bRows useAx) steps with e2 | result
    · constructor
      · intro hc
        injection hc with h2
        have h4 := horiuchi_error_not_align _ _ _ _ _ _ _ hh
        rw [h2] at h4
        cases h4
      · intro hc
        exact absurd hc h3
    · constructor
      · intro hc
        cases hc
      · intro hc
        exact absurd hc h3

lemma alignAndDecompose_ne_cohort (aRows bRows : List Row)
    (ca cb r s : String) (useAx : Bool) (steps : Nat) :
    alignAndDecompose aRows bRows ca cb r s useAx steps ≠ .error .emptyCohort ∧
    alignAndDecompose aRows bRows ca cb r s useAx steps ≠ .error .emptyCounty := by
  constructor <;>
    · intro h
      rcases alignAndDecompose_error_shape _ _ _ _ _ _ _ _ _ h with h2 | h2
      · exact absurd h2 (by decide)
      · exact absurd h2 (by decide)

lemma commonKeysOf_sorted (aRows bRows : List Row) :
    (commonKeysOf aRows bRows).Pairwise (fun k1 k2 => k1.1 ≤ k2.1) := by
  have hs := List.sorted_insertionSort keyLe
    ((aRows.map rkey).dedup.filter (fun k => decide (k ∈ bRows.map rkey)))
  refine List.Pairwise.imp ?_ hs
  intro k1 k2 h12
  rcases h12 with h | ⟨h, _⟩
  · exact le_of_lt h
  · exact le_of_eq h

/-- C7: decompose_between_counties fails with the empty-cohort error exactly
when no row matches the race and sex, fails with the empty-county error
exactly when a county subset is empty, fails with the no-overlap error
exactly when the counties share no age-group key; in each case no result is
produced, and the common keys, hence the rows of any successful result, are
sorted ascending by age. -/
theorem decompose_failure_modes (records : List Row)
    (county_a county_b race sex : String) (useAx : Bool) (steps : Nat) :
    (decompose_between_counties records county_a county_b race sex useAx steps =
        .error .emptyCohort ↔ cohortOf records race sex = []) ∧
    (decompose_between_counties records county_a county_b race sex useAx steps =
        .error .emptyCounty ↔
      cohortOf records race sex ≠ [] ∧
        (countyRows (cohortOf records race sex) county_a = [] ∨
         countyRows (cohortOf records race sex) county_b = [])) ∧
    (decompose_between_counties records county_a county_b race sex useAx steps =
        .error .noOverlap ↔
      cohortOf records race sex ≠ [] ∧
      countyRows (cohortOf records race sex) county_a ≠ [] ∧
      countyRows (cohortOf records race sex) county_b ≠ [] ∧
      commonKeysOf (countyRows (cohortOf records race sex) county_a)
        (countyRows (cohortOf records race sex) county_b) = []) ∧
    (commonKeysOf (countyRows (cohortOf records race sex) county_a)
      (countyRows (cohortOf records race sex) county_b)).Pairwise
        (fun k1 k2 => k1.1 ≤ k2.1) ∧
    (∀ out, decompose_between_counties records county_a county_b race sex useAx steps =
        .ok out →
      out.map OutRow.age_lower =
        (commonKeysOf (countyRows (cohortOf records race sex) county_a)
          (countyRows (cohortOf records race sex) county_b)).map Prod.fst) := by
  set coh := cohortOf records race sex with hcoh
  set aR := countyRows coh county_a with haR
  set bR := countyRows coh county_b with hbR
  refine ⟨?_, ?_, ?_, commonKeysOf_sorted aR bR, ?_⟩
  · unfold decompose_between_counties
    rw [← hcoh, ← haR, ← hbR]
    by_cases h1 : coh.isEmpty
    · rw [if_pos h1]
      simp only [List.isEmpty_iff] at h1
      simp [h1]
    · rw [if_neg h1]
      simp only [List.isEmpty_iff] at h1
      by_cases h2 : aR.isEmpty || bR.isEmpty
      · rw [if_pos h2]
        constructor
        · intro hc
          exact absurd hc (by decide)
        · intro hc
          exact absurd hc h1
      · rw [if_neg h2]
        constructor
        · intro hc
          exact absurd hc (alignAndDecompose_ne_cohort aR bR _ _ _ _ _ _).1
        · intro hc
          exact absurd hc h1
  · unfold decompose_between_counties
    rw [← hcoh, ← haR, ← hbR]
    by_cases h1 : coh.isEmpty
    · rw [if_pos h1]
      simp only [List.isEmpty_iff] at h1
      constructor
      · intro hc
        exact absurd hc (by decide)
      · intro hc
        exact absurd h1 hc.1
    · rw [if_neg h1]
      simp only [List.isEmpty_iff] at h1
      by_cases h2 : aR.isEmpty || bR.isEmpty
      · rw [if_pos h2]
        rcases Bool.or_eq_true_iff.mp h2 with h3 | h3 <;>
          rw [List.isEmpty_iff] at h3 <;> simp [h1, h3]
      · rw [if_neg h2]
        rw [Bool.or_eq_true_iff, not_or, Bool.not_eq_true, Bool.not_eq_true] at h2
        obtain ⟨h2a, h2b⟩ := h2
        rw [List.isEmpty_eq_false_iff_exists_mem] at h2a h2b
        constructor
        · intro hc
          exact absurd hc (alignAndDecompose_ne_cohort aR bR _ _ _ _ _ _).2
        · intro hc
          rcases hc.2 with h3 | h3
          · rcases h2a with ⟨x, hx⟩
            rw [h3] at hx
            cases hx
          · rcases h2b with ⟨x, hx⟩
            rw [h3] at hx
            cases hx
  · unfold decompose_between_counties
    rw [← hcoh, ← haR, ← hbR]
    by_cases h1 : coh.isEmpty
    · rw [if_pos h1]
      rw [List.isEmpty_iff] at h1
      constructor
      · intro hc
        exact absurd hc (by decide)
      · intro hc
        exact absurd h1 hc.1
    · rw [if_neg h1]
      rw [List.isEmpty_iff] at h1
      by_cases h2 : aR.isEmpty || bR.isEmpty
      · rw [if_pos h2]
        constructor
        · intro hc
          exact absurd hc (by decide)
        · intro hc
          rcases Bool.or_eq_true_iff.mp h2 with h3 | h3 <;> rw [List.isEmpty_iff] at h3
          · exact absurd h3 hc.2.1
          · exact absurd h3 hc.2.2.1
      · rw [if_neg h2]
        rw [Bool.or_eq_true_iff, not_or, Bool.not_eq_true, Bool.not_eq_true] at h2
        rw [alignAndDecompose_noOverlap_iff]
        constructor
        · intro hc
          refine ⟨h1, ?_, ?_, hc⟩
          · intro h3
            rw [← List.isEmpty_iff] at h3
            rw [h3] at h2
            cases h2.1
          · intro h3
            rw [← List.isEmpty_iff] at h3
            rw [h3] at h2
            cases h2.2
        · intro hc
          exact hc.2.2.2
  · intro out hout
    unfold decompose_between_counties at hout
    rw [← hcoh, ← haR, ← hbR] at hout
    by_cases h1 : coh.isEmpty
    · rw [if_pos h1] at hout
      cases hout
    · rw [if_neg h1] at hout
      by_cases h2 : aR.isEmpty || bR.isEmpty
      · rw [if_pos h2] at hout
        cases hout
      · rw [if_neg h2] at hout
        unfold alignAndDecompose at hout
        by_cases h3 : (commonKeysOf aR bR).isEmpty
        · rw [if_pos h3] at hout
          cases hout
        · rw [if_neg h3] at hout
          rcases hh : horiuchi_decomposition
              ((commonKeysOf aR bR).map
                (fun k => ((lastRowWith aR k).map Row.mx).getD 0))
              ((commonKeysOf aR bR).map
                (fun k => ((lastRowWith bR k).map Row.mx).getD 0))
              ((commonKeysOf aR bR).map Prod.fst)
              ((commonKeysOf aR bR).map Prod.snd)
              (axChoice aR bR useAx) steps with e2 | result <;> rw [hh] at hout
          · cases hout
          · injection hout with h4
            obtain ⟨hra, hrb, hrc⟩ := horiuchi_ok_shape _ _ _ _ _ _ _ hh
            rw [← h4, List.map_map]
            have hproj : (OutRow.age_lower ∘ fun p : ℚ × (Option ℚ × ℚ) =>
                ({ age_lower := p.1, age_upper := p.2.1, contribution := p.2.2,
                   county_a := county_a, county_b := county_b, race := race, sex := sex,
                   life_expectancy_difference := result.contribution.sum } : OutRow)) =
                Prod.fst := rfl
            rw [hproj, hra, hrb]
            apply List.map_fst_zip
            rw [List.length_zip, hrc, List.length_map, List.length_map, List.length_map]
            simp

/-- Witness for the C7 theorem: a concrete successful run produces rows in
key order. -/
theorem decompose_failure_modes_witness :
    demoOutW.map OutRow.age_lower =
      (commonKeysOf (countyRows (cohortOf demoRowsW "W" "F") "A")
        (countyRows (cohortOf demoRowsW "W" "F") "B")).map Prod.fst :=
  (decompose_failure_modes demoRowsW "A" "B" "W" "F" false 0).2.2.2.2 demoOutW (by decide)

end USHD

